import Mathlib

/-!
# Verification of the uiprogress rendering container (`progress.go`)

A shallow embedding of the progress-bar container of this repository.
The single source file under verification is `src/progress.go`; the `Bar`
type, its constructor `NewBar`, its `String` rendering and the package-level
default `Width` live in a file that is not part of `src/`, so those pieces
are modelled from the specification and are marked as such in their doc
comments.  Everything else is translated directly from `progress.go`.

Go `int` values are modelled as `Int` (no claim here is about overflow),
`io.Writer` values are modelled by an opaque identity (`WriterId`), and the
concurrent repaint loop together with the `Stop` handshake is modelled as a
small-step transition system over an explicit state type.
-/

/-- Identity of an `io.Writer`; the embedding only tracks which writer is
installed, never the bytes a writer object itself stores. -/
abbrev WriterId := Nat

/-- The numeric state of one progress bar: `Total`, `Current` and the
assigned `Width` column count (all Go `int`). -/
structure BarState where
  total : Int
  current : Int
  width : Int
deriving DecidableEq

/-- `DecoratorFunc` from `bar.go` as used by `progress.go`: a function from
the bar (its numeric snapshot) to the decoration string. -/
def DecoratorFunc := BarState → String

/-- A progress bar: numeric state plus the ordered lists of prepend and
append decorator functions (`bar.prependFuncs`, `bar.appendFuncs` as read by
`Progress.print`). -/
structure Bar where
  state : BarState
  prependFuncs : List DecoratorFunc
  appendFuncs : List DecoratorFunc

/-- Modelled from the spec: `NewBar` is in `bar.go`, which is not under
`src/`.  Per the spec a Bar is constructed with the given `total`, zero
progress and no decorators; the container assigns its width right after
construction (`Progress.AddBar`, progress.go line 109). -/
def NewBar (total : Int) : Bar :=
  { state := { total := total, current := 0, width := 0 }
    prependFuncs := []
    appendFuncs := [] }

/-- Result of the `term.GetSize` collaborator call: the reported width and
whether the call returned an error. -/
structure TermSizeResult where
  width : Int
  err : Bool
deriving DecidableEq

/-- `getTerminalWidth` (progress.go lines 25-30): returns the detected
width when the query succeeded with a positive width, otherwise the
package-level default `Width` (a variable of `bar.go`, threaded here as the
parameter `Width`). -/
def getTerminalWidth (r : TermSizeResult) (Width : Int) : Int :=
  if r.err = false ∧ 0 < r.width then r.width else Width

/-- The `Progress` container (progress.go lines 33-50).  The `uilive.Writer`
collaborator `lw` is represented by the identity of its output writer
(`lwOut`); the mutex and channels are part of the loop model below. -/
structure Progress where
  out : WriterId
  width : Int
  bars : List Bar
  refreshInterval : Int
  lwOut : WriterId

/-- `Progress.SetOut` (progress.go lines 89-95): installs `o` as both the
container's `Out` and the live writer's output. -/
def Progress.SetOut (p : Progress) (o : WriterId) : Progress :=
  { p with out := o, lwOut := o }

/-- `Progress.SetRefreshInterval` (progress.go lines 97-101). -/
def Progress.SetRefreshInterval (p : Progress) (interval : Int) : Progress :=
  { p with refreshInterval := interval }

/-- `Progress.AddBar` (progress.go lines 104-112): builds `NewBar total`,
sets its width to the container's current width, appends it to `Bars` and
returns it. -/
def Progress.AddBar (p : Progress) (total : Int) : Progress × Bar :=
  let bar0 := NewBar total
  let bar := { bar0 with state := { bar0.state with width := p.width } }
  ({ p with bars := p.bars ++ [bar] }, bar)

/-- `decoratorsWidth` as computed by `Progress.print` (progress.go lines
150-160): each decorator string's length plus one for its separating space,
summed over the snapshot of prepend and append decorators.  The decorators
see the bar's state before the new width is assigned. -/
def decoratorsWidth (b : Bar) : Int :=
  ((b.prependFuncs.map fun f => ((f b.state).length : Int) + 1).sum) +
  ((b.appendFuncs.map fun f => ((f b.state).length : Int) + 1).sum)

/-- A reference to one registered decorator of a bar, by list and position;
used to trace decorator evaluations during a render pass. -/
inductive DecRef where
  | prepend (i : Nat)
  | append (i : Nat)
deriving DecidableEq

/-- The decorator evaluations performed by the width-accounting phase of
`Progress.print` for one bar (progress.go lines 153-160): every prepend
decorator once, then every append decorator once. -/
def widthPassEvals (b : Bar) : List DecRef :=
  (List.range b.prependFuncs.length).map DecRef.prepend ++
  (List.range b.appendFuncs.length).map DecRef.append

/-- Modelled from the spec: `Bar.String` is in `bar.go`, which is not under
`src/`.  Per the spec the rendered line composes the prepend decorator
strings (space-joined), the bar glyphs and the append decorator strings, so
rendering evaluates each prepend and each append decorator once. -/
def renderEvals (b : Bar) : List DecRef :=
  (List.range b.prependFuncs.length).map DecRef.prepend ++
  (List.range b.appendFuncs.length).map DecRef.append

/-- Modelled from the spec: the fill-length law of `Bar`'s renderer
(`bar.go` is not under `src/`).  Fill length is
`floor(availableWidth * current / total)` clamped to `[0, availableWidth]`. -/
def fillLength (availableWidth current total : Int) : Int :=
  min availableWidth (max 0 (availableWidth * current / total))

/-- Modelled from the spec: `Bar.String` (`bar.go` is not under `src/`).
Composition per the spec: prepend decorators space-joined, then the bar
glyphs sized to the assigned width with fill length given by `fillLength`,
then the append decorators space-joined. -/
def Bar.render (b : Bar) : String :=
  let pre := b.prependFuncs.map fun f => f b.state
  let app := b.appendFuncs.map fun f => f b.state
  let fill := (fillLength b.state.width b.state.current b.state.total).toNat
  let glyphs :=
    String.mk (List.replicate fill '=' ++
      List.replicate (b.state.width.toNat - fill) '-')
  String.intercalate " " (pre ++ [glyphs] ++ app)

/-- The per-bar work of one `Progress.print` iteration (progress.go lines
140-174): the updated bar, the rendered line, and the trace of decorator
evaluations (width pass, then the evaluations inside `bar.String()`). -/
structure BarRender where
  bar : Bar
  line : String
  evals : List DecRef

/-- One iteration of the loop body of `Progress.print` (progress.go lines
140-174): snapshot the decorator lists, accumulate `decoratorsWidth`,
compute `barWidth = termWidth - decoratorsWidth` floored at 10, assign it to
the bar and render the line via `bar.String()`. -/
def printBar (termWidth : Int) (b : Bar) : BarRender :=
  let dw := decoratorsWidth b
  let bw0 := termWidth - dw
  let bw := if bw0 < 10 then 10 else bw0
  let b' := { b with state := { b.state with width := bw } }
  { bar := b', line := b'.render, evals := widthPassEvals b ++ renderEvals b' }

/-- One event on the output stream: a line written to the live writer
(`fmt.Fprintln(p.lw, ...)`, progress.go line 173) or a flush
(`p.lw.Flush()`, line 175). -/
inductive OutEvent where
  | line (s : String)
  | flush
deriving DecidableEq

/-- Whether an output event is a written line. -/
def OutEvent.isLine : OutEvent → Bool
  | .line _ => true
  | .flush => false

/-- `Progress.print` (progress.go lines 133-176): detect the terminal width
(falling back to the package-level default `Width`, threaded as the
parameter `Width`), then for each bar in order compute and assign its width
and write its rendered line, and finally flush once.  Returns the updated
container and the sequence of output events of the tick. -/
def Progress.print (p : Progress) (r : TermSizeResult) (Width : Int) :
    Progress × List OutEvent :=
  let termWidth := getTerminalWidth r Width
  let step := fun (acc : List Bar × List OutEvent) (b : Bar) =>
    let br := printBar termWidth b
    (acc.1 ++ [br.bar], acc.2 ++ [OutEvent.line br.line])
  let folded := p.bars.foldl step ([], [])
  ({ p with bars := folded.1 }, folded.2 ++ [OutEvent.flush])

/-- The sleep duration read by one iteration of `Progress.Listen`
(progress.go lines 118-120): the container's current `RefreshInterval`,
read under the lock at the top of every iteration. -/
def iterationSleep (p : Progress) : Int :=
  p.refreshInterval

/-- A run of the interval-reading behaviour of `Progress.Listen`
(progress.go lines 116-123) with externally interleaved
`SetRefreshInterval` calls: entry `some i` of the schedule means a caller
stored `i` between the previous iteration's read and this iteration's read,
`none` means no store happened.  Returns the sleep duration used by each
iteration in order. -/
def listenSleeps : Progress → List (Option Int) → List Int
  | _, [] => []
  | p, u :: rest =>
    let p' := match u with
      | some i => p.SetRefreshInterval i
      | none => p
    iterationSleep p' :: listenSleeps p' rest

/-- Program counter of the `Listen` goroutine (progress.go lines 115-131):
at the top of the `select`; executing the final `p.print()` of the `tdone`
branch; about to `close(p.tdone)`; or returned. -/
inductive LoopPC where
  | atSelect
  | finalPrint
  | atClose
  | returned
deriving DecidableEq

/-- Program counter of the goroutine calling `Stop` (progress.go lines
184-187): not yet called; blocked sending on the unbuffered `tdone`
channel; waiting to receive from `tdone` (which succeeds once the channel
is closed); or returned from `Stop`. -/
inductive StopPC where
  | idle
  | sending
  | waitingClose
  | returned
deriving DecidableEq

/-- Observable events of a run of the loop: a render-and-flush
(`p.print()`), the rendezvous of `Stop`'s send with the loop's `tdone`
receive, and `Stop` returning to its caller. -/
inductive Ev where
  | render
  | stopSignal
  | stopReturn
deriving DecidableEq

/-- Joint state of the `Listen` goroutine and a single `Stop` caller:
both program counters, whether `tdone` has been closed, and the trace of
observable events so far. -/
structure Sys where
  loopPC : LoopPC
  stopPC : StopPC
  closed : Bool
  trace : List Ev
deriving DecidableEq

/-- Initial state: `Start` has launched the loop (it sits at the `select`)
and `Stop` has not yet been called. -/
def Sys.init : Sys :=
  { loopPC := .atSelect, stopPC := .idle, closed := false, trace := [] }

/-- Interleaving semantics of `Listen` (progress.go lines 115-131) and
`Stop` (lines 184-187).  A timer tick may fire even while a `Stop` sender
is pending, because Go's `select` chooses among ready cases
nondeterministically; the unbuffered send `p.tdone <- true` and the
`select`'s receive form one rendezvous step; `Stop`'s trailing receive
`<-p.tdone` can complete only after `close(p.tdone)`. -/
inductive Step : Sys → Sys → Prop
  | timerTick (s : Sys) (h : s.loopPC = .atSelect) :
      Step s { s with trace := s.trace ++ [Ev.render] }
  | stopCall (s : Sys) (h : s.stopPC = .idle) :
      Step s { s with stopPC := .sending }
  | rendezvous (s : Sys) (h1 : s.loopPC = .atSelect) (h2 : s.stopPC = .sending) :
      Step s { s with loopPC := .finalPrint, stopPC := .waitingClose,
                      trace := s.trace ++ [Ev.stopSignal] }
  | finalRender (s : Sys) (h : s.loopPC = .finalPrint) :
      Step s { s with loopPC := .atClose, trace := s.trace ++ [Ev.render] }
  | closeChan (s : Sys) (h : s.loopPC = .atClose) :
      Step s { s with loopPC := .returned, closed := true }
  | stopRet (s : Sys) (h1 : s.stopPC = .waitingClose) (h2 : s.closed = true) :
      Step s { s with stopPC := .returned, trace := s.trace ++ [Ev.stopReturn] }

/-- States reachable from `Sys.init` by the interleaving semantics. -/
inductive Reachable : Sys → Prop
  | init : Reachable Sys.init
  | step {s t : Sys} : Reachable s → Step s t → Reachable t

/-- Every event of the list is a render (the regular ticks before `Stop`
is signalled). -/
def allRenders (l : List Ev) : Prop :=
  ∀ e ∈ l, e = Ev.render

/-- Inductive invariant of the joint system, keyed on the `Stop` caller's
program counter: before the rendezvous the trace is all regular renders;
after it the trace carries the stop signal, then exactly one final render,
and `stopReturn` appears only once the loop has returned and closed the
channel. -/
def SysInv (s : Sys) : Prop :=
  match s.stopPC with
  | .idle =>
      s.loopPC = .atSelect ∧ s.closed = false ∧ allRenders s.trace
  | .sending =>
      s.loopPC = .atSelect ∧ s.closed = false ∧ allRenders s.trace
  | .waitingClose =>
      ∃ pre, allRenders pre ∧
        ((s.loopPC = .finalPrint ∧ s.closed = false ∧
            s.trace = pre ++ [Ev.stopSignal]) ∨
         (s.loopPC = .atClose ∧ s.closed = false ∧
            s.trace = pre ++ [Ev.stopSignal, Ev.render]) ∨
         (s.loopPC = .returned ∧ s.closed = true ∧
            s.trace = pre ++ [Ev.stopSignal, Ev.render]))
  | .returned =>
      ∃ pre, allRenders pre ∧ s.loopPC = .returned ∧ s.closed = true ∧
        s.trace = pre ++ [Ev.stopSignal, Ev.render, Ev.stopReturn]

theorem allRenders_append_render {l : List Ev} (h : allRenders l) :
    allRenders (l ++ [Ev.render]) := by
  intro e he
  rcases List.mem_append.mp he with h1 | h1
  · exact h e h1
  · simpa using h1

theorem inv_init : SysInv Sys.init := by
  refine ⟨rfl, rfl, ?_⟩
  intro e he
  simp [Sys.init] at he

theorem inv_step {s t : Sys} (hs : SysInv s) (hst : Step s t) : SysInv t := by
  cases hst with
  | timerTick h =>
    unfold SysInv at hs ⊢
    cases hpc : s.stopPC with
    | idle =>
      rw [hpc] at hs
      exact ⟨hs.1, hs.2.1, allRenders_append_render hs.2.2⟩
    | sending =>
      rw [hpc] at hs
      exact ⟨hs.1, hs.2.1, allRenders_append_render hs.2.2⟩
    | waitingClose =>
      rw [hpc] at hs
      rcases hs with ⟨pre, _, h1 | h1 | h1⟩ <;>
        · rw [h1.1] at h; cases h
    | returned =>
      rw [hpc] at hs
      rcases hs with ⟨pre, _, h1, _⟩
      rw [h1] at h; cases h
  | stopCall h =>
    unfold SysInv at hs ⊢
    rw [h] at hs
    exact hs
  | rendezvous h1 h2 =>
    unfold SysInv at hs ⊢
    rw [h2] at hs
    exact ⟨s.trace, hs.2.2, Or.inl ⟨rfl, hs.2.1, rfl⟩⟩
  | finalRender h =>
    unfold SysInv at hs ⊢
    cases hpc : s.stopPC with
    | idle => rw [hpc] at hs; rw [hs.1] at h; cases h
    | sending => rw [hpc] at hs; rw [hs.1] at h; cases h
    | waitingClose =>
      rw [hpc] at hs
      rcases hs with ⟨pre, hpre, h1 | h1 | h1⟩
      · refine ⟨pre, hpre, Or.inr (Or.inl ⟨rfl, h1.2.1, ?_⟩)⟩
        rw [h1.2.2]
        simp
      · rw [h1.1] at h; cases h
      · rw [h1.1] at h; cases h
    | returned =>
      rw [hpc] at hs
      rcases hs with ⟨pre, _, h1, _⟩
      rw [h1] at h; cases h
  | closeChan h =>
    unfold SysInv at hs ⊢
    cases hpc : s.stopPC with
    | idle => rw [hpc] at hs; rw [hs.1] at h; cases h
    | sending => rw [hpc] at hs; rw [hs.1] at h; cases h
    | waitingClose =>
      rw [hpc] at hs
      rcases hs with ⟨pre, hpre, h1 | h1 | h1⟩
      · rw [h1.1] at h; cases h
      · exact ⟨pre, hpre, Or.inr (Or.inr ⟨rfl, rfl, h1.2.2⟩)⟩
      · rw [h1.1] at h; cases h
    | returned =>
      rw [hpc] at hs
      rcases hs with ⟨pre, _, h1, _⟩
      rw [h1] at h; cases h
  | stopRet h1 h2 =>
    unfold SysInv at hs ⊢
    rw [h1] at hs
    rcases hs with ⟨pre, hpre, hc | hc | hc⟩
    · rw [hc.2.1] at h2; cases h2
    · rw [hc.2.1] at h2; cases h2
    · refine ⟨pre, hpre, hc.1, hc.2.1, ?_⟩
      rw [hc.2.2]
      simp

theorem print_foldl (tw : Int) (l : List Bar) :
    ∀ acc : List Bar × List OutEvent,
      l.foldl
        (fun a b =>
          (a.1 ++ [(printBar tw b).bar], a.2 ++ [OutEvent.line (printBar tw b).line]))
        acc
      = (acc.1 ++ l.map (fun b => (printBar tw b).bar),
         acc.2 ++ l.map (fun b => OutEvent.line (printBar tw b).line)) := by
  induction l with
  | nil => intro acc; simp
  | cons b t ih =>
    intro acc
    simp only [List.foldl_cons, ih, List.map_cons]
    simp

theorem print_eq (p : Progress) (r : TermSizeResult) (Width : Int) :
    p.print r Width =
      ({ p with bars := p.bars.map fun b => (printBar (getTerminalWidth r Width) b).bar },
       (p.bars.map fun b => OutEvent.line (printBar (getTerminalWidth r Width) b).line)
         ++ [OutEvent.flush]) := by
  simp only [Progress.print]
  rw [print_foldl]
  simp

theorem printBar_width (tw : Int) (b : Bar) :
    (printBar tw b).bar.state.width = max 10 (tw - decoratorsWidth b) := by
  simp only [printBar]
  split <;> omega

theorem printBar_keeps_total (tw : Int) (b : Bar) :
    (printBar tw b).bar.state.total = b.state.total := rfl

theorem printBar_keeps_current (tw : Int) (b : Bar) :
    (printBar tw b).bar.state.current = b.state.current := rfl

theorem printBar_keeps_prependFuncs (tw : Int) (b : Bar) :
    (printBar tw b).bar.prependFuncs = b.prependFuncs := rfl

theorem printBar_keeps_appendFuncs (tw : Int) (b : Bar) :
    (printBar tw b).bar.appendFuncs = b.appendFuncs := rfl

/-- C1: on every tick, with `W` the width used for the tick (the detected
terminal width, `getTerminalWidth`) and `D` a bar's total decorator width
(`decoratorsWidth`, each string length plus one over prepend and append
decorators), the width assigned to each bar of the container before
rendering is `max 10 (W - D)`. -/
theorem print_assigns_width_law (p : Progress) (r : TermSizeResult) (Width : Int) :
    ((p.print r Width).1.bars).map (fun b => b.state.width)
      = p.bars.map (fun b => max 10 (getTerminalWidth r Width - decoratorsWidth b)) := by
  rw [print_eq]
  simp [List.map_map, Function.comp, printBar_width]

/-- C5: every tick's output is exactly one written line per bar of the
container, in the bars' order, followed by exactly one flush as the final
event: the frame is emitted whole. -/
theorem print_frame_shape (p : Progress) (r : TermSizeResult) (Width : Int) :
    (p.print r Width).2
      = (p.bars.map fun b => OutEvent.line (printBar (getTerminalWidth r Width) b).line)
          ++ [OutEvent.flush] ∧
    ((p.print r Width).2).countP OutEvent.isLine = p.bars.length ∧
    ((p.print r Width).2).count OutEvent.flush = 1 ∧
    ((p.print r Width).2).getLast? = some OutEvent.flush := by
  have he : (p.print r Width).2
      = (p.bars.map fun b => OutEvent.line (printBar (getTerminalWidth r Width) b).line)
          ++ [OutEvent.flush] := by
    rw [print_eq]
  refine ⟨he, ?_, ?_, ?_⟩
  · rw [he, List.countP_append]
    have h1 : (p.bars.map fun b =>
        OutEvent.line (printBar (getTerminalWidth r Width) b).line).countP
          OutEvent.isLine
        = (p.bars.map fun b =>
            OutEvent.line (printBar (getTerminalWidth r Width) b).line).length := by
      apply List.countP_eq_length.mpr
      intro e he'
      rcases List.mem_map.mp he' with ⟨b, _, hb⟩
      rw [← hb]
      rfl
    rw [h1]
    simp [OutEvent.isLine]
  · rw [he, List.count_append]
    have h0 : (p.bars.map fun b =>
        OutEvent.line (printBar (getTerminalWidth r Width) b).line).count
          OutEvent.flush = 0 := by
      apply List.count_eq_zero.mpr
      intro hmem
      rcases List.mem_map.mp hmem with ⟨b, _, hb⟩
      cases hb
    rw [h0]
    simp
  · rw [he]
    simp

/-- C7: the repaint loop reads `RefreshInterval` at the top of every
iteration, so whenever `SetRefreshInterval i` is the last store before
iteration `k`'s read, iteration `k` sleeps for `i`, whatever happened
before. -/
theorem setRefreshInterval_used_next_iteration (p : Progress)
    (pre : List (Option Int)) (i : Int) (rest : List (Option Int)) :
    (listenSleeps p (pre ++ some i :: rest))[pre.length]? = some i := by
  induction pre generalizing p with
  | nil =>
    simp [listenSleeps, iterationSleep, Progress.SetRefreshInterval]
  | cons u t ih =>
    cases u <;> simp only [List.cons_append, listenSleeps, List.length_cons,
      List.getElem?_cons_succ] <;> exact ih _

/-- C8: `AddBar total` appends exactly one bar, carrying the given total,
zero progress and the container's current width, to the end of `Bars` and
returns that bar; `SetOut` and `SetRefreshInterval` leave `Bars` untouched,
and a render tick maps each bar in place (same length, same order, numeric
totals, progress and decorator lists preserved), so `Bars` is
insertion-ordered and append-only. -/
theorem addBar_appends_one_bar (p : Progress) (total : Int) :
    (p.AddBar total).1.bars = p.bars ++ [(p.AddBar total).2] ∧
    (p.AddBar total).2.state.total = total ∧
    (p.AddBar total).2.state.current = 0 ∧
    (p.AddBar total).2.state.width = p.width ∧
    (p.AddBar total).2.prependFuncs = [] ∧
    (p.AddBar total).2.appendFuncs = [] ∧
    (∀ o, (p.SetOut o).bars = p.bars) ∧
    (∀ j, (p.SetRefreshInterval j).bars = p.bars) ∧
    (∀ r Width, ∃ f, (p.print r Width).1.bars = p.bars.map f ∧
       ∀ b, (f b).state.total = b.state.total ∧
            (f b).state.current = b.state.current ∧
            (f b).prependFuncs = b.prependFuncs ∧
            (f b).appendFuncs = b.appendFuncs) := by
  refine ⟨rfl, rfl, rfl, rfl, rfl, rfl, fun o => rfl, fun j => rfl, fun r Width => ?_⟩
  refine ⟨fun b => (printBar (getTerminalWidth r Width) b).bar, ?_, fun b => ⟨rfl, rfl, rfl, rfl⟩⟩
  rw [print_eq]

/-- C9: `getTerminalWidth` falls back to the default `Width` both when the
size query errors and when it succeeds with a non-positive width; hence a
positive fallback width makes the width used for the tick positive. -/
theorem getTerminalWidth_fallback (r : TermSizeResult) (Width : Int) :
    (r.err = true → getTerminalWidth r Width = Width) ∧
    (r.err = false → r.width ≤ 0 → getTerminalWidth r Width = Width) ∧
    (0 < Width → 0 < getTerminalWidth r Width) := by
  refine ⟨?_, ?_, ?_⟩
  · intro h
    simp [getTerminalWidth, h]
  · intro h1 h2
    simp [getTerminalWidth, h1]
    intro h3
    omega
  · intro h
    unfold getTerminalWidth
    split
    · rename_i hc
      exact hc.2
    · exact h

theorem getTerminalWidth_fallback_witness :
    getTerminalWidth ⟨37, true⟩ 80 = 80 ∧
    getTerminalWidth ⟨0, false⟩ 80 = 80 ∧
    0 < getTerminalWidth ⟨0, false⟩ 80 :=
  ⟨(getTerminalWidth_fallback ⟨37, true⟩ 80).1 rfl,
   (getTerminalWidth_fallback ⟨0, false⟩ 80).2.1 rfl (by decide),
   (getTerminalWidth_fallback ⟨0, false⟩ 80).2.2 (by decide)⟩

/-- C10: `SetOut o` installs `o` as the container's `Out` and as the live
writer's output, and changes nothing else: `Bars`, `Width` and
`RefreshInterval` are untouched. -/
theorem setOut_frame_effect (p : Progress) (o : WriterId) :
    (p.SetOut o).out = o ∧
    (p.SetOut o).lwOut = o ∧
    (p.SetOut o).bars = p.bars ∧
    (p.SetOut o).width = p.width ∧
    (p.SetOut o).refreshInterval = p.refreshInterval :=
  ⟨rfl, rfl, rfl, rfl, rfl⟩

/-- C6: for `total > 0` and a nonnegative available width, the fill length
equals `floor(availableWidth * clamp(current,0,total) / total)`; in
particular it is never negative and never exceeds `availableWidth`, even
when `current > total` or `current < 0`. -/
theorem fillLength_clamp (aw c t : Int) (ht : 0 < t) (haw : 0 ≤ aw) :
    fillLength aw c t = aw * max 0 (min c t) / t ∧
    0 ≤ fillLength aw c t ∧ fillLength aw c t ≤ aw := by
  have htne : t ≠ 0 := ne_of_gt ht
  have hcancel : aw * t / t = aw := Int.mul_ediv_cancel aw htne
  refine ⟨?_, le_min haw (le_max_left _ _), min_le_left _ _⟩
  unfold fillLength
  by_cases hc0 : c ≤ 0
  · have hmm : max 0 (min c t) = 0 := by
      rw [min_eq_left (le_trans hc0 (le_of_lt ht))]
      exact max_eq_left hc0
    rw [hmm, mul_zero, Int.zero_ediv]
    have hax : aw * c ≤ 0 := mul_nonpos_iff.mpr (Or.inl ⟨haw, hc0⟩)
    have hx : aw * c / t ≤ 0 := by
      have h1 := Int.ediv_le_ediv ht hax
      rwa [Int.zero_ediv] at h1
    rw [max_eq_left hx]
    exact min_eq_right haw
  · push_neg at hc0
    by_cases hct : c ≤ t
    · have hmm : max 0 (min c t) = c := by
        rw [min_eq_left hct]
        exact max_eq_right (le_of_lt hc0)
      rw [hmm]
      have hxnn : 0 ≤ aw * c / t :=
        Int.ediv_nonneg (mul_nonneg haw (le_of_lt hc0)) (le_of_lt ht)
      have hxle : aw * c / t ≤ aw := by
        have h1 : aw * c ≤ aw * t := mul_le_mul_of_nonneg_left hct haw
        have h2 := Int.ediv_le_ediv ht h1
        rwa [hcancel] at h2
      rw [max_eq_right hxnn]
      exact min_eq_right hxle
    · push_neg at hct
      have hmm : max 0 (min c t) = t := by
        rw [min_eq_right (le_of_lt hct)]
        exact max_eq_right (le_of_lt ht)
      rw [hmm, hcancel]
      have hge : aw ≤ aw * c / t := by
        have h1 : aw * t ≤ aw * c := mul_le_mul_of_nonneg_left (le_of_lt hct) haw
        have h2 := Int.ediv_le_ediv ht h1
        rwa [hcancel] at h2
      rw [max_eq_right (le_trans haw hge)]
      exact min_eq_left hge

theorem fillLength_clamp_witness :
    fillLength 20 50 100 = 20 * max 0 (min 50 100) / 100 ∧
    0 ≤ fillLength 20 50 100 ∧ fillLength 20 50 100 ≤ 20 :=
  fillLength_clamp 20 50 100 (by decide) (by decide)

theorem reachable_sysInv (s : Sys) (hr : Reachable s) : SysInv s := by
  induction hr with
  | init => exact inv_init
  | step h1 h2 ih => exact inv_step ih h2

/-- C4: in every reachable state of the `Listen`/`Stop` system in which
`Stop` has returned, the loop has terminated and the whole trace is some
regular renders, then the stop signal, then exactly one final render, then
`Stop`'s return — so a single `Stop` triggers exactly one final
render-and-flush, `Stop` returns only after the loop has terminated, and
no repaint ever follows `Stop`'s return. -/
theorem stop_handshake_final_render (s : Sys) (hr : Reachable s)
    (hret : s.stopPC = StopPC.returned) :
    s.loopPC = LoopPC.returned ∧
    ∃ pre, allRenders pre ∧
      s.trace = pre ++ [Ev.stopSignal, Ev.render, Ev.stopReturn] := by
  have hinv := reachable_sysInv s hr
  unfold SysInv at hinv
  rw [hret] at hinv
  rcases hinv with ⟨pre, hpre, hl, _, htr⟩
  exact ⟨hl, pre, hpre, htr⟩

theorem stop_handshake_final_render_witness :
    (⟨LoopPC.returned, StopPC.returned, true,
        [Ev.stopSignal, Ev.render, Ev.stopReturn]⟩ : Sys).loopPC = LoopPC.returned ∧
    ∃ pre, allRenders pre ∧
      (⟨LoopPC.returned, StopPC.returned, true,
          [Ev.stopSignal, Ev.render, Ev.stopReturn]⟩ : Sys).trace
        = pre ++ [Ev.stopSignal, Ev.render, Ev.stopReturn] := by
  have h1 : Reachable (⟨LoopPC.atSelect, StopPC.sending, false, []⟩ : Sys) :=
    Reachable.step Reachable.init (Step.stopCall Sys.init rfl)
  have h2 : Reachable (⟨LoopPC.finalPrint, StopPC.waitingClose, false,
      [Ev.stopSignal]⟩ : Sys) :=
    Reachable.step h1 (Step.rendezvous _ rfl rfl)
  have h3 : Reachable (⟨LoopPC.atClose, StopPC.waitingClose, false,
      [Ev.stopSignal, Ev.render]⟩ : Sys) :=
    Reachable.step h2 (Step.finalRender _ rfl)
  have h4 : Reachable (⟨LoopPC.returned, StopPC.waitingClose, true,
      [Ev.stopSignal, Ev.render]⟩ : Sys) :=
    Reachable.step h3 (Step.closeChan _ rfl)
  have h5 : Reachable (⟨LoopPC.returned, StopPC.returned, true,
      [Ev.stopSignal, Ev.render, Ev.stopReturn]⟩ : Sys) :=
    Reachable.step h4 (Step.stopRet _ rfl rfl)
  exact stop_handshake_final_render _ h5 rfl

/-- A container whose own `Width` field (120) differs from the package
default `Width` (70 in the scenario below): it holds one bar and no
decorators. -/
def wideProgress : Progress :=
  { out := 0
    width := 120
    bars := [NewBar 100]
    refreshInterval := 10
    lwOut := 0 }

/-- C2 as stated is false: `getTerminalWidth` (progress.go line 29) falls
back to the package-level `Width` variable, not to the instance's `Width`
field.  With package default 70 and instance field 120, a tick whose size
query errors assigns width `max 10 (70 - 0) = 70`, not
`max 10 (120 - 0) = 120`. -/
theorem print_fallback_not_instance_field :
    ¬ ((wideProgress.print ⟨0, true⟩ 70).1.bars.map (fun b => b.state.width)
        = wideProgress.bars.map (fun b => max 10 (wideProgress.width - decoratorsWidth b))) := by
  decide

/-- C2 amended: on every tick whose terminal-size query fails, every bar of
the container is assigned a width derived from the package-level default
`Width` (namely `max 10 (Width - D)`), not from the instance's `Width`
field, and the tick still completes its full frame ending in a flush — the
failure is absorbed, not surfaced. -/
theorem print_fallback_uses_package_width (p : Progress) (r : TermSizeResult)
    (Width : Int) (herr : r.err = true) :
    ((p.print r Width).1.bars).map (fun b => b.state.width)
      = p.bars.map (fun b => max 10 (Width - decoratorsWidth b)) ∧
    (p.print r Width).2.getLast? = some OutEvent.flush := by
  have hW : getTerminalWidth r Width = Width := by
    simp [getTerminalWidth, herr]
  constructor
  · rw [print_eq]
    simp [List.map_map, Function.comp, printBar_width, hW]
  · rw [print_eq]
    simp

theorem print_fallback_uses_package_width_witness :
    ((wideProgress.print ⟨0, true⟩ 70).1.bars).map (fun b => b.state.width)
      = wideProgress.bars.map (fun b => max 10 (70 - decoratorsWidth b)) ∧
    (wideProgress.print ⟨0, true⟩ 70).2.getLast? = some OutEvent.flush :=
  print_fallback_uses_package_width wideProgress ⟨0, true⟩ 70 rfl

/-- A bar with a single prepend decorator, for exercising the decorator
evaluation trace. -/
def oneDecoratorBar : Bar :=
  { state := { total := 100, current := 50, width := 0 }
    prependFuncs := [fun _ => "p"]
    appendFuncs := [] }

/-- C3 as stated is false: during one tick the render pass evaluates each
decorator twice, not once — once in the width-accounting loop
(progress.go lines 153-159) and once again inside `bar.String()`
(line 173).  For a bar with one prepend decorator the evaluation trace of
the tick contains that decorator twice. -/
theorem decorator_not_evaluated_once :
    ¬ (((printBar 80 oneDecoratorBar).evals).count (DecRef.prepend 0) = 1) := by
  decide

theorem count_prepend_in_evals (n m : Nat) (i : Nat) (hi : i < n) :
    (((List.range n).map DecRef.prepend) ++
      ((List.range m).map DecRef.append)).count (DecRef.prepend i) = 1 := by
  rw [List.count_append]
  have hinj : Function.Injective DecRef.prepend := by
    intro a b h
    injection h
  have h1 : ((List.range n).map DecRef.prepend).count (DecRef.prepend i) = 1 := by
    rw [List.count_map_of_injective _ _ hinj]
    exact List.count_eq_one_of_mem (List.nodup_range n) (List.mem_range.mpr hi)
  have h2 : ((List.range m).map DecRef.append).count (DecRef.prepend i) = 0 := by
    apply List.count_eq_zero.mpr
    intro hmem
    rcases List.mem_map.mp hmem with ⟨a, _, ha⟩
    cases ha
  rw [h1, h2]

theorem count_append_in_evals (n m : Nat) (i : Nat) (hi : i < m) :
    (((List.range n).map DecRef.prepend) ++
      ((List.range m).map DecRef.append)).count (DecRef.append i) = 1 := by
  rw [List.count_append]
  have hinj : Function.Injective DecRef.append := by
    intro a b h
    injection h
  have h1 : ((List.range n).map DecRef.prepend).count (DecRef.append i) = 0 := by
    apply List.count_eq_zero.mpr
    intro hmem
    rcases List.mem_map.mp hmem with ⟨a, _, ha⟩
    cases ha
  have h2 : ((List.range m).map DecRef.append).count (DecRef.append i) = 1 := by
    rw [List.count_map_of_injective _ _ hinj]
    exact List.count_eq_one_of_mem (List.nodup_range m) (List.mem_range.mpr hi)
  rw [h1, h2]

/-- C3 amended: during one tick each registered decorator of a bar is
evaluated exactly twice — once by the width-accounting pass of
`Progress.print` and once again when the line is rendered via
`bar.String()`; the width accounting and the rendered line therefore use
two separate evaluations, not one shared result. -/
theorem decorator_evaluated_twice_per_tick (tw : Int) (b : Bar) :
    (∀ i, i < b.prependFuncs.length →
      ((printBar tw b).evals).count (DecRef.prepend i) = 2) ∧
    (∀ i, i < b.appendFuncs.length →
      ((printBar tw b).evals).count (DecRef.append i) = 2) := by
  have hevals : (printBar tw b).evals
      = (((List.range b.prependFuncs.length).map DecRef.prepend) ++
          ((List.range b.appendFuncs.length).map DecRef.append)) ++
        (((List.range b.prependFuncs.length).map DecRef.prepend) ++
          ((List.range b.appendFuncs.length).map DecRef.append)) := rfl
  constructor
  · intro i hi
    rw [hevals, List.count_append, count_prepend_in_evals _ _ _ hi]
  · intro i hi
    rw [hevals, List.count_append, count_append_in_evals _ _ _ hi]

theorem decorator_evaluated_twice_per_tick_witness :
    ((printBar 80 oneDecoratorBar).evals).count (DecRef.prepend 0) = 2 :=
  (decorator_evaluated_twice_per_tick 80 oneDecoratorBar).1 0 (by decide)
